import Mathlib

/-
  Verification of the line-server program (src/src/main.rs) against its
  natural-language specification.

  The embedding works over `List Char` for the text handled by the server.
  Pure fragments of the Rust code (request classification, argument
  extraction, line lookup, response construction) are translated into
  executable Lean functions; the asynchronous accept loop and the
  per-connection mutual-exclusion discipline are translated into explicit
  transition systems whose events model the suspension points of the
  tokio runtime.
-/

namespace LineSrv

/-! ## Characters and whitespace

The Rust code calls `str::trim`, which removes Unicode whitespace from both
ends.  The protocol traffic relevant to the spec is ASCII, so the embedding
models the ASCII whitespace characters (space, tab, line feed, vertical tab,
form feed, carriage return). -/

/-- Line feed character, the response terminator appended by the server. -/
def chNL : Char := '\n'

/-- The character `G`, first character of the `GET` keyword. -/
def chG : Char := 'G'

/-- The character `+`, the sign accepted by Rust unsigned-integer parsing. -/
def chPlus : Char := '+'

/-- ASCII whitespace test used to model `str::trim`. -/
def isWS (c : Char) : Bool :=
  c.toNat = 32 || c.toNat = 9 || c.toNat = 10 || c.toNat = 11 ||
  c.toNat = 12 || c.toNat = 13

/-- Drop leading whitespace (the left half of `str::trim`). -/
def trimL (s : List Char) : List Char := s.dropWhile isWS

/-- Drop trailing whitespace (the right half of `str::trim`). -/
def rtrimWs (s : List Char) : List Char := (s.reverse.dropWhile isWS).reverse

/-- Model of `str::trim`: drop whitespace at both ends. -/
def trimWs (s : List Char) : List Char := rtrimWs (trimL s)

/-! ## Reading lines

`tokio::io::AsyncBufReadExt::lines` yields the newline-delimited records of
a byte stream: each record is terminated by `\n` (stripped, together with a
`\r` directly before it); a final record without a terminating newline is
yielded as-is. -/

/-- Strip one leading carriage return from a reversed line buffer; models the
`\r` stripping that tokio performs after removing a trailing `\n`. -/
def stripCRrev : List Char → List Char
  | '\r' :: t => t
  | l => l

/-- Accumulating reader for `lines`: `cur` is the reversed buffer of the
record being read. -/
def readLinesAux : List Char → List Char → List (List Char)
  | cur, [] => match cur with
      | [] => []
      | _ => [cur.reverse]
  | cur, c :: rest =>
      if c = chNL then (stripCRrev cur).reverse :: readLinesAux [] rest
      else readLinesAux (c :: cur) rest

/-- The records of a byte stream as yielded by `BufReader::lines`. -/
def readLines (content : List Char) : List (List Char) := readLinesAux [] content

/-! ## Request classification

`TcpRequest::from_str` (main.rs lines 37-44): a trimmed line starting with
the literal `GET` is a `Get`; the exact strings `SHUTDOWN` and `QUIT` give
the other two variants; anything else is `Err(())`, i.e. invalid.  The Rust
enum carries no payload; the line number is extracted later, inside
`handle_get_request`. -/

/-- The keyword `GET`, as matched by `s.starts_with("GET")`. -/
def getKw : List Char := ['G', 'E', 'T']

/-- The keyword `SHUTDOWN`. -/
def shutdownKw : List Char := ['S', 'H', 'U', 'T', 'D', 'O', 'W', 'N']

/-- The keyword `QUIT`. -/
def quitKw : List Char := ['Q', 'U', 'I', 'T']

/-- Model of `str::starts_with` on character lists: first argument is the
pattern, second the scanned string. -/
def startsWithL : List Char → List Char → Bool
  | [], _ => true
  | _ :: _, [] => false
  | p :: ps, c :: cs => if p = c then startsWithL ps cs else false

/-- The request variants of the Rust `TcpRequest` enum. -/
inductive TcpRequest
  | get
  | shutdown
  | quit
deriving DecidableEq

/-- Model of `TcpRequest::from_str`; `none` models `Err(())` (an invalid
line).  The match arms are tried in source order. -/
def TcpRequest.from_str (s : List Char) : Option TcpRequest :=
  if startsWithL getKw s then some TcpRequest.get
  else if s = shutdownKw then some TcpRequest.shutdown
  else if s = quitKw then some TcpRequest.quit
  else none

/-! ## Number parsing

`str::parse::<usize>` accepts an optional leading `+` followed by one or
more ASCII decimal digits and fails on overflow past `usize::MAX`
(64-bit target, so values must be below `2 ^ 64`). -/

/-- The exclusive upper bound of `usize` values on a 64-bit target. -/
def usizeBound : Nat := 2 ^ 64

/-- Decimal digit test with value extraction. -/
def digitVal (c : Char) : Option Nat :=
  if 48 ≤ c.toNat ∧ c.toNat ≤ 57 then some (c.toNat - 48) else none

/-- Left-to-right accumulation of a decimal value. -/
def goParse : List Char → Nat → Option Nat
  | [], acc => some acc
  | c :: rest, acc =>
      match digitVal c with
      | some d => goParse rest (acc * 10 + d)
      | none => none

/-- Parse a nonempty all-digit string. -/
def parseDigits : List Char → Option Nat
  | [] => none
  | c :: rest => goParse (c :: rest) 0

/-- Model of `str::parse::<usize>`: optional leading `+`, digits, bound
check.  An intermediate overflow in the Rust accumulation happens exactly
when the final value is out of bounds, since prefixes of a digit string have
smaller values. -/
def parseUsize (s : List Char) : Option Nat :=
  let s2 := match s with
    | c :: rest => if c = chPlus then rest else c :: rest
    | [] => []
  match parseDigits s2 with
  | some v => if v < usizeBound then some v else none
  | none => none

/-! ## Line lookup

`LineServer::read_line_from_file` (main.rs lines 179-200): open the file,
scan its lines with a counter `index` starting at 0, return the line whose
`index + 1` equals the requested number, and otherwise build an
`io::Error` whose message is
`line number '<n>' is out of the range '1 to <index + 1>'`.
The embedding receives the file content as a value, so the `File::open` and
read failures (`IOFailure` in the spec) are out of scope; the error payload
records the numbers interpolated into the message. -/

/-- The payload of the out-of-range error message: the requested line
number, and the two bounds printed as the valid range (`1 to hi`). -/
inductive LookupError
  | outOfRange (lineNumber lo hi : Nat)
deriving DecidableEq

/-- Result of a lookup, mirroring `Result<String>` in the Rust code. -/
inductive LookupResult
  | ok (line : List Char)
  | err (e : LookupError)
deriving DecidableEq

/-- The scanning loop of `read_line_from_file`: `index` counts the lines
already passed; the error at end-of-file reports `index + 1` as the upper
bound of the valid range, exactly as the Rust format string does. -/
def lookupLoop (lineNumber : Nat) : List (List Char) → Nat → LookupResult
  | [], index => LookupResult.err (LookupError.outOfRange lineNumber 1 (index + 1))
  | l :: rest, index =>
      if index + 1 = lineNumber then LookupResult.ok l
      else lookupLoop lineNumber rest (index + 1)

/-- Model of `read_line_from_file`, applied to the content of the backing
file. -/
def read_line_from_file (content : List Char) (lineNumber : Nat) : LookupResult :=
  lookupLoop lineNumber (readLines content) 0

/-! ## GET handling

`LineServer::handle_get_request` (main.rs lines 144-175): delete every
occurrence of the substring `GET ` from the trimmed request line
(`str::replace` replaces all non-overlapping occurrences, left to right),
trim, parse as `usize`; on success look the line up and answer
`<line>\n`, otherwise answer `ERR\n`.  Failures are reported on stderr;
the function returns `Ok(())` unconditionally. -/

/-- The pattern `GET ` (with trailing space) removed by
`get_str.replace("GET ", "")`. -/
def getPat : List Char := ['G', 'E', 'T', ' ']

/-- Deletion of every occurrence of `GET ` (leftmost, non-overlapping),
specialised to the only pattern the program ever passes to
`str::replace`. -/
def removeGetSp : List Char → List Char
  | 'G' :: 'E' :: 'T' :: ' ' :: rest => removeGetSp rest
  | c :: rest => c :: removeGetSp rest
  | [] => []

/-- The literal `ERR\n` response. -/
def errBytes : List Char := ['E', 'R', 'R', chNL]

/-- Diagnostic messages printed to stderr by the handler. -/
inductive Diag
  | invalidLine
  | parseFailed
  | lookupFailed
  | writeFailed
deriving DecidableEq

instance : DecidableEq (Except Unit Unit) := fun a b =>
  match a, b with
  | Except.ok (), Except.ok () => Decidable.isTrue rfl
  | Except.error (), Except.error () => Decidable.isTrue rfl
  | Except.ok (), Except.error () => Decidable.isFalse (fun h => Except.noConfusion h)
  | Except.error (), Except.ok () => Decidable.isFalse (fun h => Except.noConfusion h)

/-- The observable outcome of one `handle_get_request` call: the bytes
passed to `write_all`, the diagnostics printed, and the returned
`Result<()>` (inspected by the `?` operator in `handle_connection`).
`writeOk` tells whether the `write_all` call succeeds. -/
structure GetOutcome where
  attempted : List Char
  diags : List Diag
  result : Except Unit Unit
deriving DecidableEq

/-- Model of `handle_get_request`.  `write_line` starts as `ERR\n` and is
replaced only when both the parse and the lookup succeed; a write failure
adds a diagnostic but the function still returns `Ok(())`. -/
def handle_get_request (content get_str : List Char) (writeOk : Bool) : GetOutcome :=
  let no_get_str := removeGetSp get_str
  let parse_num := parseUsize (trimWs no_get_str)
  let lineAndDiag :=
    match parse_num with
    | some n =>
        match read_line_from_file content n with
        | LookupResult.ok line => (line ++ [chNL], ([] : List Diag))
        | LookupResult.err _ => (errBytes, [Diag.lookupFailed])
    | none => (errBytes, [Diag.parseFailed])
  { attempted := lineAndDiag.1
    diags := lineAndDiag.2 ++ (if writeOk then [] else [Diag.writeFailed])
    result := Except.ok () }

/-! ## The per-connection request loop

`LineServer::handle_connection` (main.rs lines 105-137): lock the stream
once, then read lines until end-of-stream (or a read error surfaced by
`?`).  Each line is trimmed and classified; `Get` answers through
`handle_get_request`, `Quit` and `Shutdown` break out of the loop
(`Shutdown` cancels the token first), and an unclassifiable line is only
reported on stderr.  The embedding processes the list of lines delivered
by the client; `writeOk i` is the outcome of the write performed for the
line of index `i`. -/

/-- The observable outcome of one connection: the payload of every
`write_all` call in order, the diagnostics, whether `token.cancel()` was
called, and how many input lines the loop consumed before ending. -/
structure ConnResult where
  writes : List (List Char)
  diags : List Diag
  cancelled : Bool
  consumed : Nat
deriving DecidableEq

/-- Model of the request loop of `handle_connection`. -/
def handle_connection (content : List Char) (writeOk : Nat → Bool) :
    List (List Char) → Nat → ConnResult
  | [], _ => ⟨[], [], false, 0⟩
  | line :: rest, i =>
      let trimmed := trimWs line
      match TcpRequest.from_str trimmed with
      | some TcpRequest.get =>
          let g := handle_get_request content trimmed (writeOk i)
          (match g.result with
           | Except.error _ => ⟨[g.attempted], g.diags, false, 1⟩
           | Except.ok _ =>
               let r := handle_connection content writeOk rest (i + 1)
               ⟨g.attempted :: r.writes, g.diags ++ r.diags, r.cancelled, r.consumed + 1⟩)
      | some TcpRequest.shutdown => ⟨[], [], true, 1⟩
      | some TcpRequest.quit => ⟨[], [], false, 1⟩
      | none =>
          let r := handle_connection content writeOk rest (i + 1)
          ⟨r.writes, Diag.invalidLine :: r.diags, r.cancelled, r.consumed + 1⟩

/-- The request line `GET <n>` for a decimal rendering of `n`. -/
def digitChar (d : Nat) : Char := Char.ofNat (48 + d)

/-- Most-significant-first decimal digits of a natural number. -/
def natCharsAux (n : Nat) (acc : List Char) : List Char :=
  let d := digitChar (n % 10)
  if h : n / 10 = 0 then d :: acc
  else natCharsAux (n / 10) (d :: acc)
termination_by n
decreasing_by
  exact Nat.div_lt_self (Nat.pos_of_ne_zero (fun h0 => h (by simp [h0]))) (by omega)

/-- Decimal rendering of a natural number. -/
def natChars (n : Nat) : List Char := natCharsAux n []

/-- The protocol request line `GET <n>`. -/
def getRequestLine (n : Nat) : List Char := getPat ++ natChars n

/-! ## The accept loop as a transition system

`LineServer::run` (main.rs lines 58-101) loops over a `tokio::select!`
with two branches: `token.cancelled()` closes the `TaskTracker` and breaks,
and `Ok((stream, _)) = listener.accept()` spawns a handler task and
registers it in the tracker.  After the loop, `tracker.wait().await`
suspends until every tracked task has finished, and only then does `run`
return `Ok(())`.

The cooperative execution of one `run` call is modelled as a flat trace of
events.  `cancelFires` is the cancellation branch completing; `acceptOk c`
is the accept branch completing with a new connection `c`; `acceptErr` is
the accept future resolving with `Err`, which fails the `Ok((stream, _))`
pattern, so `select!` disables that branch and — because the loop body only
runs again once the `select!` completes, which it now can only do through
cancellation that breaks the loop — no further accept is ever started;
`taskFinishes c` is a spawned handler task running to completion.  An
`acceptOk` event cannot fire while the branch is disabled or after the
loop has exited, so those events are ignored in the corresponding states. -/

/-- Events observed by one execution of `LineServer::run`. -/
inductive RunEvent
  | cancelFires
  | acceptOk (c : Nat)
  | acceptErr
  | taskFinishes (c : Nat)
deriving DecidableEq

/-- State of the `run` call: connections accepted so far (each spawned a
handler registered in the `TaskTracker`), tasks still live, whether the
accept branch is disabled by a pattern-match failure, whether
`tracker.close()` ran, and whether the loop has exited. -/
structure RunState where
  accepted : List Nat
  live : List Nat
  acceptDisabled : Bool
  trackerClosed : Bool
  loopDone : Bool
deriving DecidableEq

/-- One event applied to the `run` state. -/
def runStep (s : RunState) (e : RunEvent) : RunState :=
  match e with
  | RunEvent.taskFinishes c => { s with live := s.live.erase c }
  | RunEvent.cancelFires =>
      if s.loopDone then s
      else { s with trackerClosed := true, loopDone := true }
  | RunEvent.acceptOk c =>
      if s.loopDone || s.acceptDisabled then s
      else { s with accepted := s.accepted ++ [c], live := s.live ++ [c] }
  | RunEvent.acceptErr =>
      if s.loopDone then s else { s with acceptDisabled := true }

/-- The state at entry of the loop. -/
def initRun : RunState := ⟨[], [], false, false, false⟩

/-- The state after a trace of events. -/
def runTrace (tr : List RunEvent) : RunState := tr.foldl runStep initRun

/-- Whether `run` has returned `Ok(())` by the end of the trace: the loop
must have exited and `tracker.wait()` must have seen every tracked task
finish. -/
def runReturns (tr : List RunEvent) : Bool :=
  (runTrace tr).loopDone && (runTrace tr).live.isEmpty

/-! ## Stream access under the connection mutex

Each accepted stream is wrapped in `Arc<Mutex<TcpStream>>` and touched by
exactly two actors: the handler (`handle_connection` locks the stream once
at main.rs line 110 and performs all its reads and writes through the two
halves of the guarded stream, releasing the guard when the function
returns or its future is dropped) and the cancellation-triggered closer
(main.rs lines 83-86: lock, `shutdown`, release).

The two actors are modelled as straight-line programs of atomic actions;
`acquire` can only fire when nobody holds the lock, `release` when the
acting party holds it, while a stream operation carries no side condition
at all — the semantics would happily let an actor touch the stream without
the lock, and the theorem shows the two programs never do. -/

/-- The two actors sharing one connection's stream. -/
inductive Actor
  | handler
  | closer
deriving DecidableEq

/-- The stream operations appearing in the two code paths. -/
inductive StreamOp
  | readOp
  | writeOp
  | closeOp
deriving DecidableEq

/-- Atomic actions of an actor. -/
inductive MuAction
  | acquire
  | release
  | sop (o : StreamOp)
deriving DecidableEq

/-- The handler's program: lock once, perform its reads and writes, drop
the guard at the end.  `ops` is the sequence of stream operations its
request loop happens to perform. -/
def handlerProgOf (ops : List StreamOp) : List MuAction :=
  MuAction.acquire :: (ops.map MuAction.sop ++ [MuAction.release])

/-- The forced-close path: lock, best-effort `shutdown`, drop the guard. -/
def closerProg : List MuAction :=
  [MuAction.acquire, MuAction.sop StreamOp.closeOp, MuAction.release]

/-- Interleaving state: the remaining program of each actor and the current
holder of the mutex. -/
structure MuSys where
  remH : List MuAction
  remC : List MuAction
  holder : Option Actor
deriving DecidableEq

/-- Initial state for a handler performing `ops`. -/
def initMuSys (ops : List StreamOp) : MuSys := ⟨handlerProgOf ops, closerProg, none⟩

/-- Small-step interleaving semantics.  Acquisition requires the mutex to
be free; release requires ownership; a stream operation is never blocked by
the semantics. -/
inductive MuStep : MuSys → Actor → MuAction → MuSys → Prop
  | handlerAcquire (rest rc : List MuAction) :
      MuStep ⟨MuAction.acquire :: rest, rc, none⟩ Actor.handler MuAction.acquire
        ⟨rest, rc, some Actor.handler⟩
  | handlerRelease (rest rc : List MuAction) :
      MuStep ⟨MuAction.release :: rest, rc, some Actor.handler⟩ Actor.handler MuAction.release
        ⟨rest, rc, none⟩
  | handlerSop (o : StreamOp) (rest rc : List MuAction) (hold : Option Actor) :
      MuStep ⟨MuAction.sop o :: rest, rc, hold⟩ Actor.handler (MuAction.sop o)
        ⟨rest, rc, hold⟩
  | closerAcquire (rh rest : List MuAction) :
      MuStep ⟨rh, MuAction.acquire :: rest, none⟩ Actor.closer MuAction.acquire
        ⟨rh, rest, some Actor.closer⟩
  | closerRelease (rh rest : List MuAction) :
      MuStep ⟨rh, MuAction.release :: rest, some Actor.closer⟩ Actor.closer MuAction.release
        ⟨rh, rest, none⟩
  | closerSop (o : StreamOp) (rh rest : List MuAction) (hold : Option Actor) :
      MuStep ⟨rh, MuAction.sop o :: rest, hold⟩ Actor.closer (MuAction.sop o)
        ⟨rh, rest, hold⟩

/-- Reachability from a given initial state. -/
inductive MuReach (s0 : MuSys) : MuSys → Prop
  | refl : MuReach s0 s0
  | step {s s' : MuSys} {a : Actor} {act : MuAction} :
      MuReach s0 s → MuStep s a act s' → MuReach s0 s'

/-- The handler is inside its critical section exactly when its remaining
program is a tail of the operations-then-release phase. -/
def handlerMid (ops : List StreamOp) (rem : List MuAction) : Prop :=
  ∃ k, k ≤ ops.length ∧ rem = (ops.drop k).map MuAction.sop ++ [MuAction.release]

/-- The closer is inside its critical section in exactly two positions. -/
def closerMid (rem : List MuAction) : Prop :=
  rem = [MuAction.sop StreamOp.closeOp, MuAction.release] ∨ rem = [MuAction.release]

/-- Invariant tying each actor's program position to lock ownership. -/
def MuInv (ops : List StreamOp) (s : MuSys) : Prop :=
  (s.remH = handlerProgOf ops ∨ handlerMid ops s.remH ∨ s.remH = []) ∧
  (s.remC = closerProg ∨ closerMid s.remC ∨ s.remC = []) ∧
  (s.holder = some Actor.handler ↔ handlerMid ops s.remH) ∧
  (s.holder = some Actor.closer ↔ closerMid s.remC)

/-! ## Helper lemmas: decimal rendering and parsing -/

lemma digitChar_toNat (d : Nat) (h : d < 10) : (digitChar d).toNat = 48 + d := by
  interval_cases d <;> decide

lemma natCharsAux_digits (n : Nat) :
    ∀ acc, (∀ c ∈ acc, 48 ≤ c.toNat ∧ c.toNat ≤ 57) →
      ∀ c ∈ natCharsAux n acc, 48 ≤ c.toNat ∧ c.toNat ≤ 57 := by
  induction n using Nat.strong_induction_on with
  | _ n ih =>
    intro acc hacc c hc
    rw [natCharsAux] at hc
    have hd : (digitChar (n % 10)).toNat = 48 + n % 10 :=
      digitChar_toNat _ (Nat.mod_lt _ (by omega))
    by_cases h0 : n / 10 = 0
    · rw [dif_pos h0] at hc
      rcases List.mem_cons.mp hc with rfl | hmem
      · constructor <;> omega
      · exact hacc c hmem
    · rw [dif_neg h0] at hc
      have hpos : 0 < n := Nat.pos_of_ne_zero fun hn => h0 (by simp [hn])
      refine ih _ (Nat.div_lt_self hpos (by omega)) _ ?_ c hc
      intro c2 hc2
      rcases List.mem_cons.mp hc2 with rfl | hmem
      · constructor <;> omega
      · exact hacc c2 hmem

lemma natChars_digits (n : Nat) : ∀ c ∈ natChars n, 48 ≤ c.toNat ∧ c.toNat ≤ 57 :=
  natCharsAux_digits n [] (by intro c hc; cases hc)

lemma natCharsAux_ne_nil (n : Nat) : ∀ acc, natCharsAux n acc ≠ [] := by
  induction n using Nat.strong_induction_on with
  | _ n ih =>
    intro acc
    rw [natCharsAux]
    by_cases h0 : n / 10 = 0
    · simp [h0]
    · rw [dif_neg h0]
      have hpos : 0 < n := Nat.pos_of_ne_zero fun hn => h0 (by simp [hn])
      exact ih _ (Nat.div_lt_self hpos (by omega)) _

lemma natChars_ne_nil (n : Nat) : natChars n ≠ [] := natCharsAux_ne_nil n []

lemma natCharsAux_length (n : Nat) :
    ∀ acc, (natCharsAux n acc).length = (natCharsAux n []).length + acc.length := by
  induction n using Nat.strong_induction_on with
  | _ n ih =>
    intro acc
    by_cases h0 : n / 10 = 0
    · rw [natCharsAux, dif_pos h0]
      conv_rhs => rw [natCharsAux, dif_pos h0]
      simp
      omega
    · have hpos : 0 < n := Nat.pos_of_ne_zero fun hn => h0 (by simp [hn])
      have hlt : n / 10 < n := Nat.div_lt_self hpos (by omega)
      rw [natCharsAux, dif_neg h0]
      conv_rhs => rw [natCharsAux, dif_neg h0]
      rw [ih _ hlt (digitChar (n % 10) :: acc), ih _ hlt [digitChar (n % 10)]]
      simp
      omega

lemma digitVal_digitChar (d : Nat) (hd : d < 10) : digitVal (digitChar d) = some d := by
  rw [digitVal, digitChar_toNat d hd, if_pos ⟨by omega, by omega⟩]
  congr 1
  omega

lemma goParse_cons_digit (d : Nat) (hd : d < 10) (rest : List Char) (v : Nat) :
    goParse (digitChar d :: rest) v = goParse rest (v * 10 + d) := by
  rw [goParse, digitVal_digitChar d hd]

lemma goParse_natCharsAux (n : Nat) :
    ∀ acc v, goParse (natCharsAux n acc) v =
      goParse acc (v * 10 ^ (natCharsAux n []).length + n) := by
  induction n using Nat.strong_induction_on with
  | _ n ih =>
    intro acc v
    by_cases h0 : n / 10 = 0
    · rw [natCharsAux, dif_pos h0]
      conv_rhs => rw [natCharsAux, dif_pos h0]
      have hmod : n % 10 = n := Nat.mod_eq_of_lt (by omega)
      rw [goParse_cons_digit _ (Nat.mod_lt _ (by omega))]
      rw [hmod]
      norm_num
    · have hpos : 0 < n := Nat.pos_of_ne_zero fun hn => h0 (by simp [hn])
      have hlt : n / 10 < n := Nat.div_lt_self hpos (by omega)
      rw [natCharsAux, dif_neg h0]
      conv_rhs => rw [natCharsAux, dif_neg h0]
      rw [ih _ hlt _ v, goParse_cons_digit _ (Nat.mod_lt _ (by omega))]
      rw [natCharsAux_length (n / 10) [digitChar (n % 10)]]
      congr 1
      have hdm : n / 10 * 10 + n % 10 = n := by omega
      calc (v * 10 ^ (natCharsAux (n / 10) []).length + n / 10) * 10 + n % 10
          = v * (10 ^ (natCharsAux (n / 10) []).length * 10) + (n / 10 * 10 + n % 10) := by
            ring
        _ = v * 10 ^ ((natCharsAux (n / 10) []).length + [digitChar (n % 10)].length) + n := by
            rw [hdm]
            simp [pow_succ]
        _ = v * 10 ^ ((natCharsAux (n / 10) []).length + List.length [digitChar (n % 10)]) + n := by
            rfl

lemma parseDigits_natChars (n : Nat) : parseDigits (natChars n) = some n := by
  obtain ⟨c, t, hct⟩ := List.exists_cons_of_ne_nil (natChars_ne_nil n)
  have h1 : parseDigits (natChars n) = goParse (natChars n) 0 := by
    rw [hct]
    rfl
  rw [h1, natChars, goParse_natCharsAux n [] 0]
  simp [goParse]

lemma natChars_head_not_plus (n : Nat) (c : Char) (t : List Char)
    (hct : natChars n = c :: t) : c ≠ chPlus := by
  intro he
  have hc : c ∈ natChars n := by rw [hct]; exact List.mem_cons_self _ _
  have := natChars_digits n c hc
  rw [he] at this
  revert this
  decide

lemma parseUsize_natChars (n : Nat) (h : n < usizeBound) :
    parseUsize (natChars n) = some n := by
  obtain ⟨c, t, hct⟩ := List.exists_cons_of_ne_nil (natChars_ne_nil n)
  have hcp : c ≠ chPlus := natChars_head_not_plus n c t hct
  rw [parseUsize.eq_def, hct]
  simp only [if_neg hcp]
  rw [← hct, parseDigits_natChars n]
  simp [h]

lemma parseUsize_natChars_overflow (n : Nat) (h : ¬ n < usizeBound) :
    parseUsize (natChars n) = none := by
  obtain ⟨c, t, hct⟩ := List.exists_cons_of_ne_nil (natChars_ne_nil n)
  have hcp : c ≠ chPlus := natChars_head_not_plus n c t hct
  rw [parseUsize.eq_def, hct]
  simp only [if_neg hcp]
  rw [← hct, parseDigits_natChars n]
  simp [h]

/-! ## Helper lemmas: trimming and keywords -/

lemma isWS_of_digit_false (c : Char) (h : 48 ≤ c.toNat ∧ c.toNat ≤ 57) :
    isWS c = false := by
  simp [isWS]
  omega

lemma trimL_eq_self (s : List Char) (h1 : ∀ c, s.head? = some c → isWS c = false) :
    trimL s = s := by
  cases s with
  | nil => rfl
  | cons a t =>
    have ha := h1 a rfl
    simp [trimL, List.dropWhile_cons, ha]

lemma trimWs_eq_self (s : List Char)
    (h1 : ∀ c, s.head? = some c → isWS c = false)
    (h2 : ∀ c, s.getLast? = some c → isWS c = false) :
    trimWs s = s := by
  rw [trimWs, trimL_eq_self s h1, rtrimWs]
  cases hrev : s.reverse with
  | nil =>
    simp at hrev
    rw [hrev]
    rfl
  | cons b u =>
    have hb : isWS b = false := by
      apply h2
      rw [← List.head?_reverse, hrev]
      rfl
    rw [List.dropWhile_cons, hb]
    simp only [Bool.false_eq_true, if_false]
    rw [← hrev, List.reverse_reverse]

lemma trimWs_getPat_append (p : List Char) (hne : p ≠ [])
    (hdig : ∀ c ∈ p, 48 ≤ c.toNat ∧ c.toNat ≤ 57) :
    trimWs (getPat ++ p) = getPat ++ p := by
  apply trimWs_eq_self
  · intro c hc
    simp [getPat] at hc
    rw [← hc]
    decide
  · intro c hc
    rcases List.eq_nil_or_concat p with rfl | ⟨q, b, rfl⟩
    · exact absurd rfl hne
    · rw [List.concat_eq_append, ← List.append_assoc, List.getLast?_concat] at hc
      have hb : b ∈ q.concat b := by simp
      have := hdig b hb
      injection hc with hc2
      rw [← hc2]
      exact isWS_of_digit_false b this

lemma trimWs_digits (p : List Char)
    (hdig : ∀ c ∈ p, 48 ≤ c.toNat ∧ c.toNat ≤ 57) :
    trimWs p = p := by
  apply trimWs_eq_self
  · intro c hc
    have hmem : c ∈ p := by
      cases p with
      | nil => simp at hc
      | cons a t =>
        injection hc with hc2
        rw [← hc2]
        exact List.mem_cons_self a t
    exact isWS_of_digit_false c (hdig c hmem)
  · intro c hc
    rcases List.eq_nil_or_concat p with rfl | ⟨q, b, rfl⟩
    · simp at hc
    · rw [List.concat_eq_append, List.getLast?_concat] at hc
      injection hc with hc2
      have hb : b ∈ q.concat b := by simp
      rw [← hc2]
      exact isWS_of_digit_false b (hdig b hb)

lemma startsWithL_append_self (p x : List Char) : startsWithL p (p ++ x) = true := by
  induction p with
  | nil => rfl
  | cons a t ih => simp [startsWithL, ih]

lemma startsWithL_getKw_getPat (p : List Char) :
    startsWithL getKw (getPat ++ p) = true := by
  simp [getPat, getKw, startsWithL]

lemma from_str_get (s : List Char) (h : startsWithL getKw s = true) :
    TcpRequest.from_str s = some TcpRequest.get := by
  rw [TcpRequest.from_str, if_pos h]

lemma from_str_quit : TcpRequest.from_str quitKw = some TcpRequest.quit := by decide

lemma from_str_shutdown : TcpRequest.from_str shutdownKw = some TcpRequest.shutdown := by
  decide

/-! ## Helper lemmas: GET-argument extraction -/

lemma removeGetSp_getPat_append (s : List Char) :
    removeGetSp (getPat ++ s) = removeGetSp s := rfl

lemma removeGetSp_cons_ne (c : Char) (t : List Char) (h : c ≠ chG) :
    removeGetSp (c :: t) = c :: removeGetSp t := by
  rw [removeGetSp.eq_def]
  split
  next x rest heq =>
    injection heq with h1 h2
    exact absurd h1 (by simpa [chG] using h)
  next x c2 rest hnomatch heq =>
    injection heq with h1 h2
    rw [h1, h2]
  next x heq =>
    exact absurd heq (by simp)

lemma removeGetSp_digits (p : List Char)
    (hdig : ∀ c ∈ p, 48 ≤ c.toNat ∧ c.toNat ≤ 57) :
    removeGetSp p = p := by
  induction p with
  | nil => rfl
  | cons c t ih =>
    have hc := hdig c (List.mem_cons_self c t)
    have hne : c ≠ chG := by
      intro he
      rw [he] at hc
      revert hc
      decide
    rw [removeGetSp_cons_ne c t hne, ih (fun c2 hc2 => hdig c2 (List.mem_cons_of_mem c hc2))]

/-! ## Helper lemmas: line lookup -/

lemma lookupLoop_ok (n : Nat) :
    ∀ (lines : List (List Char)) (i : Nat) (l : List Char),
      i < n → lines[n - 1 - i]? = some l → lookupLoop n lines i = LookupResult.ok l := by
  intro lines
  induction lines with
  | nil =>
    intro i l hi hl
    simp at hl
  | cons a rest ih =>
    intro i l hi hl
    rw [lookupLoop]
    by_cases he : i + 1 = n
    · rw [if_pos he]
      have h0 : n - 1 - i = 0 := by omega
      rw [h0] at hl
      simp at hl
      rw [hl]
    · rw [if_neg he]
      have h3 : n - 1 - i = (n - 1 - (i + 1)) + 1 := by omega
      rw [h3, List.getElem?_cons_succ] at hl
      exact ih (i + 1) l (by omega) hl

lemma lookupLoop_err (n : Nat) :
    ∀ (lines : List (List Char)) (i : Nat),
      (n = 0 ∨ i + lines.length < n) →
      lookupLoop n lines i =
        LookupResult.err (LookupError.outOfRange n 1 (i + lines.length + 1)) := by
  intro lines
  induction lines with
  | nil =>
    intro i h
    simp [lookupLoop]
  | cons a rest ih =>
    intro i h
    simp only [List.length_cons] at h
    rw [lookupLoop, if_neg (by omega)]
    rw [List.length_cons,
      show i + (rest.length + 1) + 1 = (i + 1) + rest.length + 1 by omega]
    exact ih (i + 1) (by omega)

lemma lookupLoop_mem (n : Nat) :
    ∀ (lines : List (List Char)) (i : Nat) (l : List Char),
      lookupLoop n lines i = LookupResult.ok l → l ∈ lines := by
  intro lines
  induction lines with
  | nil =>
    intro i l h
    simp [lookupLoop] at h
  | cons a rest ih =>
    intro i l h
    rw [lookupLoop] at h
    by_cases he : i + 1 = n
    · rw [if_pos he] at h
      injection h with h2
      rw [← h2]
      exact List.mem_cons_self a rest
    · rw [if_neg he] at h
      exact List.mem_cons_of_mem a (ih (i + 1) l h)

/-! ## Helper lemmas: the request loop -/

lemma handle_get_request_result_ok (c s : List Char) (b : Bool) :
    (handle_get_request c s b).result = Except.ok () := rfl

lemma handle_connection_nil (c : List Char) (f : Nat → Bool) (i : Nat) :
    handle_connection c f [] i = ⟨[], [], false, 0⟩ := rfl

lemma handle_connection_cons_get (c : List Char) (f : Nat → Bool)
    (line : List Char) (rest : List (List Char)) (i : Nat)
    (h : TcpRequest.from_str (trimWs line) = some TcpRequest.get) :
    handle_connection c f (line :: rest) i =
      ⟨(handle_get_request c (trimWs line) (f i)).attempted ::
          (handle_connection c f rest (i + 1)).writes,
        (handle_get_request c (trimWs line) (f i)).diags ++
          (handle_connection c f rest (i + 1)).diags,
        (handle_connection c f rest (i + 1)).cancelled,
        (handle_connection c f rest (i + 1)).consumed + 1⟩ := by
  simp only [handle_connection, h, handle_get_request_result_ok]

lemma handle_connection_cons_quit (c : List Char) (f : Nat → Bool)
    (line : List Char) (rest : List (List Char)) (i : Nat)
    (h : TcpRequest.from_str (trimWs line) = some TcpRequest.quit) :
    handle_connection c f (line :: rest) i = ⟨[], [], false, 1⟩ := by
  simp only [handle_connection, h]

lemma handle_connection_cons_shutdown (c : List Char) (f : Nat → Bool)
    (line : List Char) (rest : List (List Char)) (i : Nat)
    (h : TcpRequest.from_str (trimWs line) = some TcpRequest.shutdown) :
    handle_connection c f (line :: rest) i = ⟨[], [], true, 1⟩ := by
  simp only [handle_connection, h]

lemma handle_connection_cons_invalid (c : List Char) (f : Nat → Bool)
    (line : List Char) (rest : List (List Char)) (i : Nat)
    (h : TcpRequest.from_str (trimWs line) = none) :
    handle_connection c f (line :: rest) i =
      ⟨(handle_connection c f rest (i + 1)).writes,
        Diag.invalidLine :: (handle_connection c f rest (i + 1)).diags,
        (handle_connection c f rest (i + 1)).cancelled,
        (handle_connection c f rest (i + 1)).consumed + 1⟩ := by
  simp only [handle_connection, h]

lemma handle_get_request_attempted_some_ok (content s : List Char) (b : Bool)
    (n : Nat) (line : List Char)
    (hp : parseUsize (trimWs (removeGetSp s)) = some n)
    (hl : read_line_from_file content n = LookupResult.ok line) :
    (handle_get_request content s b).attempted = line ++ [chNL] := by
  simp only [handle_get_request, hp, hl]

lemma handle_get_request_attempted_err (content s : List Char) (b : Bool)
    (n : Nat) (e : LookupError)
    (hp : parseUsize (trimWs (removeGetSp s)) = some n)
    (hl : read_line_from_file content n = LookupResult.err e) :
    (handle_get_request content s b).attempted = errBytes := by
  simp only [handle_get_request, hp, hl]

lemma handle_get_request_attempted_none (content s : List Char) (b : Bool)
    (hp : parseUsize (trimWs (removeGetSp s)) = none) :
    (handle_get_request content s b).attempted = errBytes := by
  simp only [handle_get_request, hp]

lemma trimWs_getPat_startsWith (t : List Char) :
    startsWithL getKw (trimWs (getPat ++ t)) = true := by
  have hL : trimL (getPat ++ t) = getPat ++ t := by
    apply trimL_eq_self
    intro c hc
    simp [getPat] at hc
    rw [← hc]
    decide
  rw [trimWs, hL, rtrimWs, List.reverse_append, List.dropWhile_append]
  by_cases hcase : (t.reverse.dropWhile isWS).isEmpty = true
  · rw [if_pos hcase]
    decide
  · rw [if_neg hcase, List.reverse_append, List.reverse_reverse]
    exact startsWithL_getKw_getPat _

/-! ## Claim theorems: the GET protocol -/

/-- C2: for every `n` with `1 ≤ n ≤` the number of newline-delimited lines
of the backing file (with `n` representable as a `usize`), the request
`GET n` is answered with exactly one write whose payload is that line's
content — its trailing newline already stripped by the line reader —
followed by one appended `\n`. -/
theorem get_valid_line_returns_content (content : List Char) (n : Nat) (f : Nat → Bool)
    (h1 : 1 ≤ n) (h2 : n ≤ (readLines content).length) (h3 : n < usizeBound) :
    (handle_connection content f [getRequestLine n] 0).writes =
      [(readLines content).get ⟨n - 1, by omega⟩ ++ [chNL]] := by
  have hdig := natChars_digits n
  have hne := natChars_ne_nil n
  have htrim : trimWs (getRequestLine n) = getRequestLine n :=
    trimWs_getPat_append _ hne hdig
  have hclass : TcpRequest.from_str (trimWs (getRequestLine n)) = some TcpRequest.get := by
    rw [htrim]
    exact from_str_get _ (startsWithL_getKw_getPat _)
  rw [handle_connection_cons_get content f _ [] 0 hclass, handle_connection_nil]
  have hp : parseUsize (trimWs (removeGetSp (trimWs (getRequestLine n)))) = some n := by
    rw [htrim, getRequestLine, removeGetSp_getPat_append, removeGetSp_digits _ hdig,
      trimWs_digits _ hdig]
    exact parseUsize_natChars n h3
  have hgl : (readLines content)[n - 1]? = some ((readLines content).get ⟨n - 1, by omega⟩) := by
    rw [List.getElem?_eq_getElem (by omega), List.get_eq_getElem]
  have hl : read_line_from_file content n =
      LookupResult.ok ((readLines content).get ⟨n - 1, by omega⟩) := by
    rw [read_line_from_file]
    exact lookupLoop_ok n (readLines content) 0 _ (by omega)
      (by rw [show n - 1 - 0 = n - 1 from rfl]; exact hgl)
  rw [handle_get_request_attempted_some_ok content _ (f 0) n _ hp hl]

/-- C2 witness: on the file `A\nB\nC\n`, the request `GET 2` is answered
with the second line followed by a newline. -/
theorem get_valid_line_returns_content_witness :
    (handle_connection ("A\nB\nC\n".toList) (fun _ => true) [getRequestLine 2] 0).writes =
      [(readLines ("A\nB\nC\n".toList)).get ⟨1, by decide⟩ ++ [chNL]] := by
  exact get_valid_line_returns_content ("A\nB\nC\n".toList) 2 (fun _ => true)
    (by decide) (by decide) (by decide)

/-- C3 counterexample: `GET 3` is text after `GET ` that does not parse as
a number, yet on the file `A\nB\nC\n` the input line `GET GET 3` is
answered with `C\n`, not with `ERR\n`: the claim's "any non-numeric text
after `GET `" case is false as stated, because the code deletes every
occurrence of `GET ` before parsing. -/
theorem get_nonnumeric_counterexample :
    parseUsize (trimWs ("GET 3".toList)) = none ∧
    (handle_connection ("A\nB\nC\n".toList) (fun _ => true) ["GET GET 3".toList] 0).writes =
      [['C', chNL]] ∧
    ['C', chNL] ≠ errBytes := by decide

/-- C3 amended: the response is exactly `ERR\n` for every `GET n` with `n`
above the line count, and for `GET 0` (whose lookup always fails with the
out-of-range error, since record indices start at 1); for other text after
`GET `, the response is `ERR\n` exactly when the trimmed line with every
occurrence of `GET ` deleted and trimmed again fails to parse as a
non-negative integer. -/
theorem get_err_response_amended (content : List Char) (f : Nat → Bool) :
    (∀ n : Nat, (readLines content).length < n →
      (handle_connection content f [getRequestLine n] 0).writes = [errBytes]) ∧
    ((handle_connection content f [getRequestLine 0] 0).writes = [errBytes] ∧
      read_line_from_file content 0 =
        LookupResult.err (LookupError.outOfRange 0 1 ((readLines content).length + 1))) ∧
    (∀ t : List Char,
      parseUsize (trimWs (removeGetSp (trimWs (getPat ++ t)))) = none →
      (handle_connection content f [getPat ++ t] 0).writes = [errBytes]) := by
  have herr0 : read_line_from_file content 0 =
      LookupResult.err (LookupError.outOfRange 0 1 ((readLines content).length + 1)) := by
    rw [read_line_from_file]
    have h := lookupLoop_err 0 (readLines content) 0 (Or.inl rfl)
    rw [h]
    norm_num
  refine ⟨?_, ⟨?_, herr0⟩, ?_⟩
  · intro n hn
    have hdig := natChars_digits n
    have hne := natChars_ne_nil n
    have htrim : trimWs (getRequestLine n) = getRequestLine n :=
      trimWs_getPat_append _ hne hdig
    have hclass : TcpRequest.from_str (trimWs (getRequestLine n)) = some TcpRequest.get := by
      rw [htrim]
      exact from_str_get _ (startsWithL_getKw_getPat _)
    rw [handle_connection_cons_get content f _ [] 0 hclass, handle_connection_nil]
    by_cases hb : n < usizeBound
    · have hp : parseUsize (trimWs (removeGetSp (trimWs (getRequestLine n)))) = some n := by
        rw [htrim, getRequestLine, removeGetSp_getPat_append, removeGetSp_digits _ hdig,
          trimWs_digits _ hdig]
        exact parseUsize_natChars n hb
      have hl : read_line_from_file content n =
          LookupResult.err
            (LookupError.outOfRange n 1 ((readLines content).length + 1)) := by
        rw [read_line_from_file]
        have h := lookupLoop_err n (readLines content) 0 (Or.inr (by omega))
        rw [h]
        norm_num
      rw [handle_get_request_attempted_err content _ (f 0) n _ hp hl]
    · have hp : parseUsize (trimWs (removeGetSp (trimWs (getRequestLine n)))) = none := by
        rw [htrim, getRequestLine, removeGetSp_getPat_append, removeGetSp_digits _ hdig,
          trimWs_digits _ hdig]
        exact parseUsize_natChars_overflow n hb
      rw [handle_get_request_attempted_none content _ (f 0) hp]
  · have hdig := natChars_digits 0
    have hne := natChars_ne_nil 0
    have htrim : trimWs (getRequestLine 0) = getRequestLine 0 :=
      trimWs_getPat_append _ hne hdig
    have hclass : TcpRequest.from_str (trimWs (getRequestLine 0)) = some TcpRequest.get := by
      rw [htrim]
      exact from_str_get _ (startsWithL_getKw_getPat _)
    rw [handle_connection_cons_get content f _ [] 0 hclass, handle_connection_nil]
    have hp : parseUsize (trimWs (removeGetSp (trimWs (getRequestLine 0)))) = some 0 := by
      rw [htrim, getRequestLine, removeGetSp_getPat_append, removeGetSp_digits _ hdig,
        trimWs_digits _ hdig]
      exact parseUsize_natChars 0 (by decide)
    rw [handle_get_request_attempted_err content _ (f 0) 0 _ hp herr0]
  · intro t hp
    have hclass : TcpRequest.from_str (trimWs (getPat ++ t)) = some TcpRequest.get :=
      from_str_get _ (trimWs_getPat_startsWith t)
    rw [handle_connection_cons_get content f _ [] 0 hclass, handle_connection_nil]
    rw [handle_get_request_attempted_none content _ (f 0) hp]

/-- C3 amended witness: on the file `A\nB\nC\n`, the request `GET 5` is
answered with `ERR\n`. -/
theorem get_err_response_amended_witness :
    (handle_connection ("A\nB\nC\n".toList) (fun _ => true) [getRequestLine 5] 0).writes =
      [errBytes] :=
  (get_err_response_amended ("A\nB\nC\n".toList) (fun _ => true)).1 5 (by decide)

/-- C4 counterexample: the trimmed line `GET xyz` starts with `GET` and its
remainder does not parse, yet the code classifies it as a Get request (not
as Invalid) and writes the response `ERR\n` to the client, contradicting
"the parser produces Invalid(original line)" and "no response written". -/
theorem get_prefixed_invalid_counterexample :
    TcpRequest.from_str (trimWs ("GET xyz".toList)) = some TcpRequest.get ∧
    (handle_connection ("A\n".toList) (fun _ => true) ["GET xyz".toList] 0).writes =
      [errBytes] := by decide

/-- C4 amended: a trimmed line is classified as invalid exactly when it
does not start with `GET` and is neither `SHUTDOWN` nor `QUIT`; an invalid
line only adds a diagnostic and the loop keeps reading, with no response
written for it (lines starting with `GET` are always classified as Get and
always receive a one-line response). -/
theorem invalid_only_for_non_get_lines (content : List Char) (f : Nat → Bool) (i : Nat)
    (line : List Char) (rest : List (List Char)) :
    (TcpRequest.from_str (trimWs line) = none ↔
      (startsWithL getKw (trimWs line) = false ∧
        trimWs line ≠ shutdownKw ∧ trimWs line ≠ quitKw)) ∧
    (TcpRequest.from_str (trimWs line) = none →
      handle_connection content f (line :: rest) i =
        ⟨(handle_connection content f rest (i + 1)).writes,
          Diag.invalidLine :: (handle_connection content f rest (i + 1)).diags,
          (handle_connection content f rest (i + 1)).cancelled,
          (handle_connection content f rest (i + 1)).consumed + 1⟩) := by
  constructor
  · rw [TcpRequest.from_str]
    split_ifs with hsw hsd hq <;> simp_all
  · exact fun h => handle_connection_cons_invalid content f line rest i h

/-- C4 amended witness: the line `HELLO` is invalid and only produces a
diagnostic, no write. -/
theorem invalid_only_for_non_get_lines_witness :
    handle_connection ("A\n".toList) (fun _ => true) ["HELLO".toList] 0 =
      ⟨(handle_connection ("A\n".toList) (fun _ => true) [] 1).writes,
        Diag.invalidLine :: (handle_connection ("A\n".toList) (fun _ => true) [] 1).diags,
        (handle_connection ("A\n".toList) (fun _ => true) [] 1).cancelled,
        (handle_connection ("A\n".toList) (fun _ => true) [] 1).consumed + 1⟩ :=
  (invalid_only_for_non_get_lines ("A\n".toList) (fun _ => true) 0 ("HELLO".toList) []).2
    (by decide)

/-- C5: on the two-line file `A\nB\n`, looking up line 3 fails with the
out-of-range error, but the reported valid range is `1 to 3`, not the
claimed `1..=totalLinesSeen = 1..=2`: the loop reports `index + 1` where
`index` has already been incremented past every line seen, an off-by-one
against both the spec and the message's own claim of validity. -/
theorem out_of_range_reports_off_by_one :
    (readLines ("A\nB\n".toList)).length = 2 ∧
    read_line_from_file ("A\nB\n".toList) 3 =
      LookupResult.err (LookupError.outOfRange 3 1 3) := by decide

/-- C6: a line trimming to exactly `QUIT` ends the request loop: no
response is written for it or for anything after it, the loop consumes no
further input, and the cancellation token is untouched. -/
theorem quit_closes_connection_silently (content : List Char) (f : Nat → Bool) (i : Nat)
    (pre post : List (List Char)) (q : List Char)
    (hq : trimWs q = quitKw)
    (hpre : ∀ l ∈ pre, TcpRequest.from_str (trimWs l) ≠ some TcpRequest.quit ∧
        TcpRequest.from_str (trimWs l) ≠ some TcpRequest.shutdown) :
    (handle_connection content f (pre ++ q :: post) i).writes =
        (handle_connection content f pre i).writes ∧
    (handle_connection content f (pre ++ q :: post) i).consumed = pre.length + 1 ∧
    (handle_connection content f (pre ++ q :: post) i).cancelled = false := by
  induction pre generalizing i with
  | nil =>
    have hclass : TcpRequest.from_str (trimWs q) = some TcpRequest.quit := by
      rw [hq]
      exact from_str_quit
    simp only [List.nil_append]
    rw [handle_connection_cons_quit content f q post i hclass, handle_connection_nil]
    exact ⟨rfl, rfl, rfl⟩
  | cons l pre ih =>
    have hl := hpre l (List.mem_cons_self l pre)
    have hrest : ∀ l2 ∈ pre, TcpRequest.from_str (trimWs l2) ≠ some TcpRequest.quit ∧
        TcpRequest.from_str (trimWs l2) ≠ some TcpRequest.shutdown :=
      fun l2 h2 => hpre l2 (List.mem_cons_of_mem l h2)
    obtain ⟨hw, hc, hx⟩ := ih (i + 1) hrest
    rcases hcl : TcpRequest.from_str (trimWs l) with _ | req
    · rw [List.cons_append, handle_connection_cons_invalid content f l _ i hcl,
        handle_connection_cons_invalid content f l pre i hcl]
      exact ⟨hw, by simp only [List.length_cons]; omega, hx⟩
    · cases req with
      | get =>
        rw [List.cons_append, handle_connection_cons_get content f l _ i hcl,
          handle_connection_cons_get content f l pre i hcl]
        refine ⟨?_, by simp only [List.length_cons]; omega, hx⟩
        show (handle_get_request content (trimWs l) (f i)).attempted ::
            (handle_connection content f (pre ++ q :: post) (i + 1)).writes = _
        rw [hw]
      | shutdown => exact absurd hcl hl.2
      | quit => exact absurd hcl hl.1

/-- C6 witness: with the file `A\nB\n`, the inputs `GET 1`, `  QUIT  `,
`GET 2` produce the same writes as `GET 1` alone, consume exactly two
lines, and never cancel. -/
theorem quit_closes_connection_silently_witness :
    (handle_connection ("A\nB\n".toList) (fun _ => true)
        (["GET 1".toList] ++ ("  QUIT  ".toList) :: ["GET 2".toList]) 0).writes =
      (handle_connection ("A\nB\n".toList) (fun _ => true) ["GET 1".toList] 0).writes ∧
    (handle_connection ("A\nB\n".toList) (fun _ => true)
        (["GET 1".toList] ++ ("  QUIT  ".toList) :: ["GET 2".toList]) 0).consumed = 2 ∧
    (handle_connection ("A\nB\n".toList) (fun _ => true)
        (["GET 1".toList] ++ ("  QUIT  ".toList) :: ["GET 2".toList]) 0).cancelled = false :=
  quit_closes_connection_silently ("A\nB\n".toList) (fun _ => true) 0
    ["GET 1".toList] ["GET 2".toList] ("  QUIT  ".toList) (by decide) (by decide)

/-- C7: the outcome of every `write_all` call is invisible to the control
flow: `handle_get_request` returns `Ok(())` whether or not the write
failed, recording the failure only as a diagnostic, and the request loop
produces the same writes, consumes the same lines, and reaches the same
cancellation state under any assignment of write failures. -/
theorem write_failure_does_not_terminate (content : List Char) (inputs : List (List Char))
    (f g : Nat → Bool) (i : Nat) :
    ((handle_connection content f inputs i).writes =
        (handle_connection content g inputs i).writes ∧
      (handle_connection content f inputs i).consumed =
        (handle_connection content g inputs i).consumed ∧
      (handle_connection content f inputs i).cancelled =
        (handle_connection content g inputs i).cancelled) ∧
    (∀ (s : List Char) (b : Bool),
      (handle_get_request content s b).result = Except.ok () ∧
      (handle_get_request content s false).diags =
        (handle_get_request content s true).diags ++ [Diag.writeFailed]) := by
  constructor
  · induction inputs generalizing i with
    | nil => exact ⟨rfl, rfl, rfl⟩
    | cons l rest ih =>
      obtain ⟨h1, h2, h3⟩ := ih (i + 1)
      rcases hcl : TcpRequest.from_str (trimWs l) with _ | req
      · rw [handle_connection_cons_invalid content f l rest i hcl,
          handle_connection_cons_invalid content g l rest i hcl]
        refine ⟨h1, ?_, h3⟩
        show (handle_connection content f rest (i + 1)).consumed + 1 =
          (handle_connection content g rest (i + 1)).consumed + 1
        omega
      · cases req with
        | get =>
          rw [handle_connection_cons_get content f l rest i hcl,
            handle_connection_cons_get content g l rest i hcl]
          refine ⟨?_, ?_, h3⟩
          · show (handle_get_request content (trimWs l) (f i)).attempted ::
                (handle_connection content f rest (i + 1)).writes =
              (handle_get_request content (trimWs l) (g i)).attempted ::
                (handle_connection content g rest (i + 1)).writes
            have hatt : (handle_get_request content (trimWs l) (f i)).attempted =
                (handle_get_request content (trimWs l) (g i)).attempted := rfl
            rw [hatt, h1]
          · show (handle_connection content f rest (i + 1)).consumed + 1 =
              (handle_connection content g rest (i + 1)).consumed + 1
            omega
        | shutdown =>
          rw [handle_connection_cons_shutdown content f l rest i hcl,
            handle_connection_cons_shutdown content g l rest i hcl]
          exact ⟨rfl, rfl, rfl⟩
        | quit =>
          rw [handle_connection_cons_quit content f l rest i hcl,
            handle_connection_cons_quit content g l rest i hcl]
          exact ⟨rfl, rfl, rfl⟩
  · intro s b
    exact ⟨rfl, by simp [handle_get_request]⟩

/-- C9: the numeric argument of a Get request is obtained by deleting every
occurrence of `GET ` from the whole trimmed line: `GET GET 3` serves line 3
of `A\nB\nC\n`; a line merely starting with `GET`, such as `GETxyz`, is
classified as a Get request, and every such line receives exactly one
response — some file line followed by `\n`, or `ERR\n` — rather than being
logged and ignored. -/
theorem get_argument_extraction_behavior :
    ((handle_connection ("A\nB\nC\n".toList) (fun _ => true) ["GET GET 3".toList] 0).writes =
        [['C', chNL]]) ∧
    (TcpRequest.from_str ("GETxyz".toList) = some TcpRequest.get) ∧
    (∀ (content line : List Char) (rest : List (List Char)) (f : Nat → Bool) (i : Nat),
      startsWithL getKw (trimWs line) = true →
      (handle_connection content f (line :: rest) i).writes =
        (handle_get_request content (trimWs line) (f i)).attempted ::
          (handle_connection content f rest (i + 1)).writes ∧
      ((handle_get_request content (trimWs line) (f i)).attempted = errBytes ∨
        ∃ l ∈ readLines content,
          (handle_get_request content (trimWs line) (f i)).attempted = l ++ [chNL])) := by
  refine ⟨by decide, by decide, ?_⟩
  intro content line rest f i hsw
  have hclass := from_str_get _ hsw
  constructor
  · rw [handle_connection_cons_get content f line rest i hclass]
  · rcases hp : parseUsize (trimWs (removeGetSp (trimWs line))) with _ | n
    · exact Or.inl (handle_get_request_attempted_none content (trimWs line) (f i) hp)
    · rcases hl : read_line_from_file content n with l | e
      · refine Or.inr ⟨l, ?_, handle_get_request_attempted_some_ok content _ (f i) n l hp hl⟩
        rw [read_line_from_file] at hl
        exact lookupLoop_mem n _ 0 l hl
      · exact Or.inl (handle_get_request_attempted_err content _ (f i) n e hp hl)

/-- C9 witness: the line `GET 2` starts with `GET` and receives exactly one
response. -/
theorem get_argument_extraction_behavior_witness :
    (handle_connection ("A\nB\n".toList) (fun _ => true) ["GET 2".toList] 0).writes =
      (handle_get_request ("A\nB\n".toList) (trimWs ("GET 2".toList)) true).attempted ::
        (handle_connection ("A\nB\n".toList) (fun _ => true) [] 1).writes :=
  (get_argument_extraction_behavior.2.2 ("A\nB\n".toList) ("GET 2".toList) []
    (fun _ => true) 0 (by decide)).1

/-! ## Helper lemmas: the accept loop -/

lemma runStep_done_fixed (s : RunState) (e : RunEvent) (h : s.loopDone = true) :
    (runStep s e).accepted = s.accepted ∧ (runStep s e).trackerClosed = s.trackerClosed ∧
    (runStep s e).loopDone = true := by
  cases e <;> simp [runStep, h]

lemma foldl_runStep_done_fixed (l : List RunEvent) :
    ∀ s : RunState, s.loopDone = true →
      (l.foldl runStep s).accepted = s.accepted ∧
      (l.foldl runStep s).trackerClosed = s.trackerClosed ∧
      (l.foldl runStep s).loopDone = true := by
  induction l with
  | nil => exact fun s h => ⟨rfl, rfl, h⟩
  | cons e rest ih =>
    intro s h
    obtain ⟨h1, h2, h3⟩ := runStep_done_fixed s e h
    obtain ⟨g1, g2, g3⟩ := ih (runStep s e) h3
    exact ⟨by rw [List.foldl_cons, g1, h1], by rw [List.foldl_cons, g2, h2],
      by rw [List.foldl_cons]; exact g3⟩

lemma runStep_noaccept (s : RunState) (e : RunEvent)
    (h : s.acceptDisabled = true ∨ s.loopDone = true) :
    (runStep s e).accepted = s.accepted ∧
    ((runStep s e).acceptDisabled = true ∨ (runStep s e).loopDone = true) := by
  cases e <;> rcases h with h | h <;> simp [runStep, h] <;> split <;> simp [h]

lemma foldl_runStep_noaccept (l : List RunEvent) :
    ∀ s : RunState, (s.acceptDisabled = true ∨ s.loopDone = true) →
      (l.foldl runStep s).accepted = s.accepted := by
  induction l with
  | nil => exact fun s _ => rfl
  | cons e rest ih =>
    intro s h
    obtain ⟨h1, h2⟩ := runStep_noaccept s e h
    rw [List.foldl_cons, ih (runStep s e) h2, h1]

lemma runStep_closed_sync (s : RunState) (e : RunEvent)
    (h : s.trackerClosed = s.loopDone) :
    (runStep s e).trackerClosed = (runStep s e).loopDone := by
  cases e <;> simp [runStep, h] <;> split <;> simp [h]

lemma foldl_runStep_closed_sync (l : List RunEvent) :
    ∀ s : RunState, s.trackerClosed = s.loopDone →
      (l.foldl runStep s).trackerClosed = (l.foldl runStep s).loopDone := by
  induction l with
  | nil => exact fun s h => h
  | cons e rest ih =>
    intro s h
    rw [List.foldl_cons]
    exact ih (runStep s e) (runStep_closed_sync s e h)

lemma runTrace_closed_eq_done (tr : List RunEvent) :
    (runTrace tr).trackerClosed = (runTrace tr).loopDone :=
  foldl_runStep_closed_sync tr initRun rfl

lemma runStep_no_cancel_stays (s : RunState) (e : RunEvent)
    (he : e ≠ RunEvent.cancelFires) (h : s.loopDone = false) :
    (runStep s e).loopDone = false := by
  cases e with
  | cancelFires => exact absurd rfl he
  | acceptOk c => simp [runStep, h]; split <;> simp [h]
  | acceptErr => simp [runStep, h]
  | taskFinishes c => simp [runStep, h]

lemma foldl_runStep_no_cancel (l : List RunEvent) (hl : RunEvent.cancelFires ∉ l) :
    ∀ s : RunState, s.loopDone = false → (l.foldl runStep s).loopDone = false := by
  induction l with
  | nil => exact fun s h => h
  | cons e rest ih =>
    intro s h
    have he : e ≠ RunEvent.cancelFires := fun hc => hl (by rw [hc]; exact List.mem_cons_self _ _)
    have hrest : RunEvent.cancelFires ∉ rest := fun hc => hl (List.mem_cons_of_mem e hc)
    rw [List.foldl_cons]
    exact ih hrest (runStep s e) (runStep_no_cancel_stays s e he h)

/-! ## Claim theorems: the accept loop -/

/-- C1: once the cancellation signal fires (raised by a client's
`SHUTDOWN`), the accept loop exits, the task tracker is closed to new
entries, no connection is accepted from that point on, and `run` returns
successfully only in a state where the tracker holds zero live tasks. -/
theorem run_waits_for_all_tasks (pre post : List RunEvent) :
    (runTrace (pre ++ RunEvent.cancelFires :: post)).loopDone = true ∧
    (runTrace (pre ++ RunEvent.cancelFires :: post)).trackerClosed = true ∧
    (runTrace (pre ++ RunEvent.cancelFires :: post)).accepted = (runTrace pre).accepted ∧
    (runReturns (pre ++ RunEvent.cancelFires :: post) = true →
      (runTrace (pre ++ RunEvent.cancelFires :: post)).live = []) := by
  have hsplit : runTrace (pre ++ RunEvent.cancelFires :: post) =
      post.foldl runStep (runStep (runTrace pre) RunEvent.cancelFires) := by
    simp only [runTrace, List.foldl_append, List.foldl_cons]
  have hsync : (runTrace pre).trackerClosed = (runTrace pre).loopDone :=
    runTrace_closed_eq_done pre
  have hs2done : (runStep (runTrace pre) RunEvent.cancelFires).loopDone = true := by
    simp only [runStep]
    split
    next h => exact h
    next h => rfl
  have hs2closed : (runStep (runTrace pre) RunEvent.cancelFires).trackerClosed = true := by
    simp only [runStep]
    split
    next h => rw [hsync]; exact h
    next h => rfl
  have hs2acc : (runStep (runTrace pre) RunEvent.cancelFires).accepted =
      (runTrace pre).accepted := by
    simp only [runStep]
    split <;> rfl
  obtain ⟨g1, g2, g3⟩ := foldl_runStep_done_fixed post _ hs2done
  refine ⟨by rw [hsplit]; exact g3, by rw [hsplit, g2, hs2closed],
    by rw [hsplit, g1, hs2acc], ?_⟩
  intro hret
  rw [runReturns, Bool.and_eq_true, List.isEmpty_iff] at hret
  exact hret.2

/-- C1 witness: a trace that accepts connection 1, cancels, and sees the
task finish ends with the loop done and no live tasks. -/
theorem run_waits_for_all_tasks_witness :
    (runTrace ([RunEvent.acceptOk 1] ++ RunEvent.cancelFires ::
        [RunEvent.taskFinishes 1])).live = [] :=
  (run_waits_for_all_tasks [RunEvent.acceptOk 1] [RunEvent.taskFinishes 1]).2.2.2 (by decide)

/-- C10: once an `accept` resolves with `Err`, the pattern
`Ok((stream, _))` fails and `select!` disables the accept branch for the
rest of that evaluation; since the loop body only runs again after the
`select!` completes — now only possible through cancellation, which breaks
the loop — no connection is ever accepted after the error, and without a
cancellation `run` never returns. -/
theorem accept_error_stops_accepting (pre post : List RunEvent) :
    (runTrace (pre ++ RunEvent.acceptErr :: post)).accepted = (runTrace pre).accepted ∧
    (RunEvent.cancelFires ∉ pre → RunEvent.cancelFires ∉ post →
      runReturns (pre ++ RunEvent.acceptErr :: post) = false) := by
  have hsplit : runTrace (pre ++ RunEvent.acceptErr :: post) =
      post.foldl runStep (runStep (runTrace pre) RunEvent.acceptErr) := by
    simp only [runTrace, List.foldl_append, List.foldl_cons]
  constructor
  · have hacc : (runStep (runTrace pre) RunEvent.acceptErr).accepted =
        (runTrace pre).accepted := by
      simp only [runStep]
      split <;> rfl
    have hdis : (runStep (runTrace pre) RunEvent.acceptErr).acceptDisabled = true ∨
        (runStep (runTrace pre) RunEvent.acceptErr).loopDone = true := by
      simp only [runStep]
      split
      next h => exact Or.inr h
      next h => exact Or.inl rfl
    rw [hsplit, foldl_runStep_noaccept post _ hdis, hacc]
  · intro h1 h2
    have hno : RunEvent.cancelFires ∉ pre ++ RunEvent.acceptErr :: post := by
      intro hmem
      rcases List.mem_append.mp hmem with hmem | hmem
      · exact h1 hmem
      · rcases List.mem_cons.mp hmem with hmem | hmem
        · exact RunEvent.noConfusion hmem
        · exact h2 hmem
    have hdone : (runTrace (pre ++ RunEvent.acceptErr :: post)).loopDone = false :=
      foldl_runStep_no_cancel _ hno initRun rfl
    rw [runReturns, hdone]
    rfl

/-- C10 witness: after accepting connection 1 and hitting an accept error,
a further ready connection 2 is never accepted and `run` does not return. -/
theorem accept_error_stops_accepting_witness :
    (runTrace ([RunEvent.acceptOk 1] ++ RunEvent.acceptErr ::
        [RunEvent.acceptOk 2])).accepted = [1] ∧
    runReturns ([RunEvent.acceptOk 1] ++ RunEvent.acceptErr ::
        [RunEvent.acceptOk 2]) = false :=
  ⟨by rw [(accept_error_stops_accepting [RunEvent.acceptOk 1] [RunEvent.acceptOk 2]).1]; decide,
    (accept_error_stops_accepting [RunEvent.acceptOk 1] [RunEvent.acceptOk 2]).2
      (by decide) (by decide)⟩

/-! ## Helper lemmas: the connection mutex -/

lemma handlerMid_not_head_acquire (ops : List StreamOp) (rest : List MuAction) :
    ¬ handlerMid ops (MuAction.acquire :: rest) := by
  rintro ⟨k, hk, heq⟩
  cases hdrop : ops.drop k with
  | nil => rw [hdrop] at heq; simp at heq
  | cons o t => rw [hdrop] at heq; simp at heq

lemma handlerMid_not_nil (ops : List StreamOp) : ¬ handlerMid ops [] := by
  rintro ⟨k, hk, heq⟩
  simp at heq

lemma handler_forms_acquire (ops : List StreamOp) (rest : List MuAction)
    (h : MuAction.acquire :: rest = handlerProgOf ops ∨
      handlerMid ops (MuAction.acquire :: rest) ∨ MuAction.acquire :: rest = []) :
    rest = ops.map MuAction.sop ++ [MuAction.release] := by
  rcases h with h | h | h
  · rw [handlerProgOf] at h
    injection h
  · exact absurd h (handlerMid_not_head_acquire ops rest)
  · exact absurd h (by simp)

lemma handler_forms_sop (ops : List StreamOp) (o : StreamOp) (rest : List MuAction)
    (h : MuAction.sop o :: rest = handlerProgOf ops ∨
      handlerMid ops (MuAction.sop o :: rest) ∨ MuAction.sop o :: rest = []) :
    handlerMid ops (MuAction.sop o :: rest) ∧ handlerMid ops rest := by
  rcases h with h | h | h
  · rw [handlerProgOf] at h
    injection h with h1 h2
    exact absurd h1 (by simp)
  · refine ⟨h, ?_⟩
    obtain ⟨k, hk, heq⟩ := h
    cases hdrop : ops.drop k with
    | nil => rw [hdrop] at heq; simp at heq
    | cons o2 t =>
      rw [hdrop] at heq
      simp only [List.map_cons, List.cons_append] at heq
      injection heq with h1 h2
      have hk2 : k < ops.length := by
        by_contra hge
        rw [List.drop_eq_nil_of_le (by omega)] at hdrop
        exact List.noConfusion hdrop
      have ht : ops.drop (k + 1) = t := by
        have hdd := List.drop_drop 1 k ops
        rw [hdrop] at hdd
        simpa using hdd.symm
      exact ⟨k + 1, by omega, by rw [ht]; exact h2⟩
  · exact absurd h (by simp)

lemma handler_forms_release (ops : List StreamOp) (rest : List MuAction)
    (h : MuAction.release :: rest = handlerProgOf ops ∨
      handlerMid ops (MuAction.release :: rest) ∨ MuAction.release :: rest = []) :
    rest = [] := by
  rcases h with h | h | h
  · rw [handlerProgOf] at h
    injection h with h1 h2
    exact absurd h1 (by simp)
  · obtain ⟨k, hk, heq⟩ := h
    cases hdrop : ops.drop k with
    | nil =>
      rw [hdrop] at heq
      simp at heq
      exact heq
    | cons o2 t => rw [hdrop] at heq; simp at heq
  · exact absurd h (by simp)

lemma closer_forms_acquire (rest : List MuAction)
    (h : MuAction.acquire :: rest = closerProg ∨
      closerMid (MuAction.acquire :: rest) ∨ MuAction.acquire :: rest = []) :
    rest = [MuAction.sop StreamOp.closeOp, MuAction.release] := by
  rcases h with h | h | h
  · rw [closerProg] at h
    injection h
  · rcases h with h | h <;> simp [closerMid] at h
  · simp at h

lemma closer_forms_sop (o : StreamOp) (rest : List MuAction)
    (h : MuAction.sop o :: rest = closerProg ∨
      closerMid (MuAction.sop o :: rest) ∨ MuAction.sop o :: rest = []) :
    rest = [MuAction.release] ∧ closerMid (MuAction.sop o :: rest) := by
  rcases h with h | h | h
  · rw [closerProg] at h
    injection h with h1 h2
    exact absurd h1 (by simp)
  · have hkeep := h
    rcases h with h3 | h3
    · simp only [List.cons.injEq] at h3
      exact ⟨h3.2, hkeep⟩
    · simp at h3
  · simp at h

lemma closer_forms_release (rest : List MuAction)
    (h : MuAction.release :: rest = closerProg ∨
      closerMid (MuAction.release :: rest) ∨ MuAction.release :: rest = []) :
    rest = [] ∧ closerMid (MuAction.release :: rest) := by
  rcases h with h | h | h
  · rw [closerProg] at h
    injection h with h1 h2
    exact absurd h1 (by simp)
  · have hkeep := h
    rcases h with h3 | h3
    · simp at h3
    · simp only [List.cons.injEq] at h3
      exact ⟨h3.2, hkeep⟩
  · simp at h

lemma closerMid_not_closerProg : ¬ closerMid closerProg := by
  intro h
  rcases h with h | h <;> exact absurd h (by decide)

lemma closerMid_not_nil : ¬ closerMid ([] : List MuAction) := by
  intro h
  rcases h with h | h <;> exact absurd h (by decide)

lemma muInv_init (ops : List StreamOp) : MuInv ops (initMuSys ops) := by
  refine ⟨Or.inl rfl, Or.inl rfl, ?_, ?_⟩
  · apply iff_of_false (by simp [initMuSys])
    exact handlerMid_not_head_acquire ops _
  · apply iff_of_false (by simp [initMuSys])
    exact closerMid_not_closerProg

lemma muInv_step (ops : List StreamOp) (s s' : MuSys) (a : Actor) (act : MuAction)
    (hinv : MuInv ops s) (hstep : MuStep s a act s') : MuInv ops s' := by
  obtain ⟨hH, hC, hih, hic⟩ := hinv
  cases hstep with
  | handlerAcquire rest rc =>
    have hrest := handler_forms_acquire ops rest hH
    refine ⟨Or.inr (Or.inl ⟨0, by simp, by simp [hrest]⟩), hC, ?_, ?_⟩
    · exact iff_of_true rfl ⟨0, by simp, by simp [hrest]⟩
    · apply iff_of_false (by simp)
      intro hcm
      exact absurd (hic.mpr hcm) (by simp)
  | handlerRelease rest rc =>
    have hrest := handler_forms_release ops rest hH
    subst hrest
    refine ⟨Or.inr (Or.inr rfl), hC,
      iff_of_false (by simp) (handlerMid_not_nil ops), ?_⟩
    apply iff_of_false (by simp)
    intro hcm
    have := hic.mpr hcm
    simp at this
  | handlerSop o rest rc hold =>
    obtain ⟨hmid1, hmid2⟩ := handler_forms_sop ops o rest hH
    have hhold : hold = some Actor.handler := hih.mpr hmid1
    subst hhold
    refine ⟨Or.inr (Or.inl hmid2), hC, iff_of_true rfl hmid2, ?_⟩
    apply iff_of_false (by simp)
    intro hcm
    have := hic.mpr hcm
    simp at this
  | closerAcquire rh rest =>
    have hrest := closer_forms_acquire rest hC
    subst hrest
    refine ⟨hH, Or.inr (Or.inl (Or.inl rfl)), ?_, iff_of_true rfl (Or.inl rfl)⟩
    apply iff_of_false (by simp)
    intro hm
    exact absurd (hih.mpr hm) (by simp)
  | closerRelease rh rest =>
    obtain ⟨hrest, hmid⟩ := closer_forms_release rest hC
    subst hrest
    refine ⟨hH, Or.inr (Or.inr rfl), ?_, iff_of_false (by simp) closerMid_not_nil⟩
    apply iff_of_false (by simp)
    intro hm
    have := hih.mpr hm
    simp at this
  | closerSop o rh rest hold =>
    obtain ⟨hrest, hmid1⟩ := closer_forms_sop o rest hC
    have hhold : hold = some Actor.closer := hic.mpr hmid1
    subst hhold
    subst hrest
    refine ⟨hH, Or.inr (Or.inl (Or.inr rfl)), ?_, iff_of_true rfl (Or.inr rfl)⟩
    apply iff_of_false (by simp)
    intro hm
    exact absurd (hih.mpr hm) (by simp)

lemma muInv_reach (ops : List StreamOp) (s : MuSys) (h : MuReach (initMuSys ops) s) :
    MuInv ops s := by
  induction h with
  | refl => exact muInv_init ops
  | step hr hstep ih => exact muInv_step ops _ _ _ _ ih hstep

/-! ## Claim theorem: the connection mutex -/

/-- C8: in every state reachable by interleaving the handler's request loop
with the cancellation-triggered forced-close path, any stream operation
(read, write, or close) is performed by an actor that currently holds the
connection's mutex — even though the semantics itself never blocks a stream
operation; since the mutex has at most one holder, the two paths never
operate on the stream concurrently. -/
theorem stream_ops_only_under_lock (ops : List StreamOp) (s s' : MuSys) (a : Actor)
    (o : StreamOp) (hr : MuReach (initMuSys ops) s)
    (hs : MuStep s a (MuAction.sop o) s') :
    s.holder = some a := by
  obtain ⟨hH, hC, hih, hic⟩ := muInv_reach ops s hr
  cases hs with
  | handlerSop o rest rc hold =>
    exact hih.mpr (handler_forms_sop ops o rest hH).1
  | closerSop o rh rest hold =>
    exact hic.mpr (closer_forms_sop o rest hC).2

/-- C8 witness: after the handler acquires the lock, its pending read on
the stream is performed while it is the holder. -/
theorem stream_ops_only_under_lock_witness :
    (MuSys.mk [MuAction.sop StreamOp.readOp, MuAction.release] closerProg
        (some Actor.handler)).holder = some Actor.handler :=
  stream_ops_only_under_lock [StreamOp.readOp] _ _ Actor.handler StreamOp.readOp
    (MuReach.step MuReach.refl (MuStep.handlerAcquire _ _))
    (MuStep.handlerSop _ _ _ _)

end LineSrv
